import Mathlib

set_option maxRecDepth 4000
set_option maxHeartbeats 1000000

/-!
Verification of the AutoPipe stack-resolution engine.

This file is a shallow embedding of `autopipe/core/resolver.py` together with
the data model of `autopipe/core/models.py`.  Pure Python functions become Lean
functions; the filesystem probed by metadata extraction is passed explicitly as
a map from a directory path to the parse outcomes of the manifest files the
extractors read there; Python exceptions that escape a function become
`Except.error` values.  Python `sorted` / `list.sort` (stable sorts) are
embedded as a stable insertion sort by integer key.
-/

namespace AutoPipe

/-- Embedding of `models.Language` (a closed `str` enum). -/
inductive Language where
  | java
  | kotlin
  | python
  | nodejs
  | typescript
  | go
  | dotnet
  | php
  | unknown
deriving DecidableEq, Fintype, Repr

/-- The `.value` string of each `Language` member, as in `models.py`. -/
def Language.value : Language → String
  | .java => "java"
  | .kotlin => "kotlin"
  | .python => "python"
  | .nodejs => "nodejs"
  | .typescript => "typescript"
  | .go => "go"
  | .dotnet => "dotnet"
  | .php => "php"
  | .unknown => "unknown"

/-- Embedding of `models.Framework`. -/
inductive Framework where
  | spring_boot
  | quarkus
  | micronaut
  | ktor
  | django
  | fastapi
  | flask
  | aiohttp
  | react
  | nextjs
  | nestjs
  | express
  | vue
  | nuxt
  | angular
  | laravel
  | symfony
  | yii
  | codeigniter
  | aspnet_core
  | blazor
  | gin
  | echo
  | fiber
  | none
deriving DecidableEq, Fintype, Repr

/-- Embedding of `models.BuildTool`. -/
inductive BuildTool where
  | maven
  | gradle
  | ant
  | npm
  | yarn
  | pnpm
  | poetry
  | pip
  | pipenv
  | conda
  | uv
  | go_mod
  | dotnet_cli
  | composer
  | none
deriving DecidableEq, Repr

/-- Embedding of `models.Dependency`. -/
structure Dependency where
  name : String
  version : String
  is_dev : Bool := false
deriving DecidableEq, Repr

/-- Embedding of `models.ProjectMetadata`. -/
structure ProjectMetadata where
  name : String
  version : String := "0.1.0"
  description : Option String := Option.none
deriving DecidableEq, Repr

/-- Embedding of `models.DetectedStack`.  `Option` fields model Python
`Optional[str]` fields (with `Option.none` for `None`). -/
structure DetectedStack where
  language : Language
  framework : Framework := .none
  build_tool : BuildTool := .none
  language_version : String := "latest"
  dependencies : List Dependency := []
  java_version : Option String := Option.none
  kotlin_version : Option String := Option.none
  dotnet_framework_version : Option String := Option.none
  node_version : Option String := Option.none
  python_version : Option String := Option.none
  go_version : Option String := Option.none
  php_version : Option String := Option.none
  project_root : Option String := Option.none
  source_dir : Option String := Option.none
  config_file : Option String := Option.none
  entrypoint : Option String := Option.none
  test_dir : Option String := Option.none
  build_output_dir : Option String := Option.none
  is_multi_module : Bool := false
  parent_project : Option String := Option.none
  modules : List String := []
  has_dockerfile : Bool := false
  has_tests : Bool := false
  test_framework : Option String := Option.none
  package_manager_lock : Option String := Option.none
deriving DecidableEq, Repr

/-- Embedding of `models.ProjectContext`.  The untyped `extra_vars:
Dict[str, Any]` extension map is not modelled; no claim mentions it. -/
structure ProjectContext where
  metadata : ProjectMetadata
  stack : DetectedStack
  root_path : String
  source_path : String := "."
  docker_context : String := "."
  is_monorepo : Bool := false
  detected_projects : List DetectedStack := []
deriving DecidableEq, Repr

/-- The two exception kinds that can escape the resolver entry points:
`emptyInput` models the `ValueError("No technology stack detected…")` raised on
an empty candidate list (the spec's `EmptyInputError`), `validation` models a
pydantic `ValidationError` raised when `ProjectMetadata(...)` is constructed
with a non-string field value. -/
inductive ResolveError where
  | emptyInput
  | validation
deriving DecidableEq, Repr

/-! ## Priority tables and scoring (`Resolver.LANGUAGE_PRIORITY`,
`Resolver.FRAMEWORK_PRIORITY`, `Resolver._get_priority`) -/

/-- Embedding of `Resolver.LANGUAGE_PRIORITY` (lower index = higher priority). -/
def LANGUAGE_PRIORITY : List Language :=
  [.java, .kotlin, .dotnet, .go, .python, .php, .typescript, .nodejs]

/-- Embedding of the dict `Resolver.FRAMEWORK_PRIORITY`; `Option.none` means
the framework is absent from the dict (only `Framework.NONE` is). -/
def FRAMEWORK_PRIORITY : Framework → Option Int
  | .spring_boot => some 0
  | .quarkus => some 1
  | .micronaut => some 2
  | .ktor => some 3
  | .django => some 0
  | .fastapi => some 1
  | .flask => some 2
  | .aiohttp => some 3
  | .nestjs => some 0
  | .express => some 1
  | .nextjs => some 10
  | .nuxt => some 11
  | .angular => some 20
  | .vue => some 21
  | .react => some 22
  | .gin => some 0
  | .echo => some 1
  | .fiber => some 2
  | .laravel => some 0
  | .symfony => some 1
  | .yii => some 2
  | .codeigniter => some 3
  | .aspnet_core => some 0
  | .blazor => some 1
  | .none => Option.none

/-- Core of `Resolver._get_priority`, as a function of the four stack
attributes the source reads.  `base_priority = 999; try: base_priority =
LANGUAGE_PRIORITY.index(lang) * 100 except ValueError: pass`, then the
framework-dict lookup with default 50, then the sequential adjustments. -/
def prioCore (lang : Language) (fw : Framework) (dockerfile tests : Bool) : Int :=
  let base : Int :=
    match LANGUAGE_PRIORITY.findIdx? (fun x => x == lang) with
    | some i => (i : Int) * 100
    | Option.none => 999
  let base := base + (FRAMEWORK_PRIORITY fw).getD 50
  let base := if lang = .typescript ∧ (fw = .nestjs ∨ fw = .express) then base - 50 else base
  let base := if lang = .nodejs ∧ (fw = .react ∨ fw = .vue ∨ fw = .angular) then base + 200 else base
  let base := if lang = .kotlin ∧ fw = .ktor then base - 10 else base
  let base := if dockerfile then base - 5 else base
  let base := if tests then base - 3 else base
  base

/-- Embedding of `Resolver._get_priority` (lower score = higher priority). -/
def getPriority (stack : DetectedStack) : Int :=
  prioCore stack.language stack.framework stack.has_dockerfile stack.has_tests

/-! ### Reference scoring formula, written from the spec's words (§4.1)

These definitions follow the spec's description of the scoring function — a
0-based precedence rank times 100 (999 flat for an unlisted language), plus a
fixed framework table (50 when absent), plus independent additive adjustments —
to be compared against `getPriority`, which is embedded from the source. -/

/-- Rank of a language in the spec's fixed precedence list; `Option.none` for a
language not in the list. -/
def languageRank : Language → Option Int
  | .java => some 0
  | .kotlin => some 1
  | .dotnet => some 2
  | .go => some 3
  | .python => some 4
  | .php => some 5
  | .typescript => some 6
  | .nodejs => some 7
  | .unknown => Option.none

/-- The spec glossary's framework rank table; unlisted frameworks score 50. -/
def refFrameworkRank : Framework → Int
  | .spring_boot => 0
  | .quarkus => 1
  | .micronaut => 2
  | .ktor => 3
  | .django => 0
  | .fastapi => 1
  | .flask => 2
  | .aiohttp => 3
  | .nestjs => 0
  | .express => 1
  | .nextjs => 10
  | .nuxt => 11
  | .angular => 20
  | .vue => 21
  | .react => 22
  | .gin => 0
  | .echo => 1
  | .fiber => 2
  | .laravel => 0
  | .symfony => 1
  | .yii => 2
  | .codeigniter => 3
  | .aspnet_core => 0
  | .blazor => 1
  | .none => 50

/-- The spec's reference score as one additive sum. -/
def refCore (lang : Language) (fw : Framework) (dockerfile tests : Bool) : Int :=
  (match languageRank lang with
   | some r => r * 100
   | Option.none => 999)
  + refFrameworkRank fw
  + (if lang = .typescript ∧ (fw = .nestjs ∨ fw = .express) then -50 else 0)
  + (if lang = .nodejs ∧ (fw = .react ∨ fw = .vue ∨ fw = .angular) then 200 else 0)
  + (if lang = .kotlin ∧ fw = .ktor then -10 else 0)
  + (if dockerfile then -5 else 0)
  + (if tests then -3 else 0)

/-- The spec's reference priority of a stack. -/
def refPriority (stack : DetectedStack) : Int :=
  refCore stack.language stack.framework stack.has_dockerfile stack.has_tests

/-! ## Stable sorting by key

Python's `sorted(xs, key=k)` and `list.sort(key=k)` are stable ascending
sorts; a stable ascending sort of a given list is unique, so the embedding may
use any stable sorting algorithm.  We use insertion sort: an element is
inserted before the first strictly-later element whose key is not smaller,
hence after every equal-key element that preceded it in the input. -/

def insertByKey {α : Type} (key : α → Int) (x : α) : List α → List α
  | [] => [x]
  | y :: ys => if key x ≤ key y then x :: y :: ys else y :: insertByKey key x ys

def sortByKey {α : Type} (key : α → Int) : List α → List α
  | [] => []
  | x :: xs => insertByKey key x (sortByKey key xs)

/-- The first element of the list attaining the minimal key — the spec's
characterisation of the winner of a stable ascending sort ("equal-score
candidates keep their input relative order", ties "broken by input order"). -/
def firstMinBy {α : Type} (key : α → Int) : List α → Option α
  | [] => Option.none
  | x :: xs =>
    match firstMinBy key xs with
    | Option.none => some x
    | some y => if key x ≤ key y then some x else some y

/-! ## Filesystem model for metadata extraction

`Resolver._extract_metadata` probes a small fixed set of manifest files at a
directory.  The filesystem is modelled as a map from a directory path to the
parse outcomes of those files: for each file, `Option.none` means "the file is
missing, or opening/parsing it raised an exception that the source catches with
`except Exception: pass`", and `some d` carries which keys/elements/regex
matches were found.  For the JSON manifests (`package.json`, `composer.json`)
a field value is `Option (Option String)`: the outer `Option` is key presence
(`dict.get` returns the default when absent) and the inner `Option` is the
value, `Option.none` modelling JSON `null`, which `json.load` maps to Python
`None`. -/

/-- Parse outcome of `package.json` (`_extract_from_package_json`). -/
structure PackageJsonData where
  name : Option (Option String) := Option.none
  version : Option (Option String) := Option.none
deriving DecidableEq, Repr

/-- Parse outcome of `pyproject.toml` (`_extract_from_python_config`): either
the Poetry table, else the PEP 621 `project` table, else neither.  TOML has no
null, so values are plain strings. -/
inductive PyprojectData where
  | poetry (name version : Option String)
  | pep621 (name version : Option String)
  | neither
deriving DecidableEq, Repr

/-- Regex-match outcome of `setup.py`; each field is the captured group of its
regex, when it matched. -/
structure SetupPyData where
  name : Option String := Option.none
  version : Option String := Option.none
deriving DecidableEq, Repr

/-- Parse outcome of `pom.xml` (`_extract_from_jvm_config`): for each element,
the outer `Option` is whether `find` located it and the inner `Option` is its
`.text`, which ElementTree reports as `None` for an empty element. -/
structure PomData where
  artifactId : Option (Option String) := Option.none
  version : Option (Option String) := Option.none
deriving DecidableEq, Repr

/-- Regex-match outcome of `build.gradle`. -/
structure GradleData where
  name : Option String := Option.none
  version : Option String := Option.none
deriving DecidableEq, Repr

/-- Parse outcome of the `.csproj` file used by `_extract_from_csproj`: `stem`
is the file name without extension (always assigned on a successful parse),
`version` the text of a `Version` element when present and truthy (the source
guards with `if ver is not None and ver.text`). -/
structure CsprojData where
  stem : String
  version : Option String := Option.none
deriving DecidableEq, Repr

/-- Parse outcome of `composer.json` (`_extract_from_composer`); JSON values,
so `some Option.none` models a key holding `null`. -/
structure ComposerData where
  name : Option (Option String) := Option.none
  version : Option (Option String) := Option.none
deriving DecidableEq, Repr

/-- Manifest-parse outcomes at one directory. -/
structure DirFS where
  packageJson : Option PackageJsonData := Option.none
  pyproject : Option PyprojectData := Option.none
  setupPy : Option SetupPyData := Option.none
  pomXml : Option PomData := Option.none
  buildGradle : Option GradleData := Option.none
  settingsGradle : Option String := Option.none
  goMod : Option String := Option.none
  csproj : Option CsprojData := Option.none
  composerJson : Option ComposerData := Option.none
deriving DecidableEq, Repr

/-! ## String and path helpers

String primitives are re-implemented by structural recursion on the character
list so that every definition is kernel-computable on concrete inputs. -/

/-- Python's `str` truthiness test for an `Optional[str]` local: `not name`
holds for `None` and for `""`. -/
def strFalsy : Option String → Bool
  | Option.none => true
  | some s => s == ""

/-- `cs.splitOnChar sep` agrees with Python `s.split(sep)` for a one-character
separator (never returns an empty list; `"".split(sep) == [""]`). -/
def splitOnChar (sep : Char) : List Char → List (List Char)
  | [] => [[]]
  | c :: cs =>
    match splitOnChar sep cs with
    | [] => [[c]]
    | h :: t => if c = sep then [] :: h :: t else (c :: h) :: t

/-- The segments of `s` split on `/`. -/
def pathSegments (s : String) : List String :=
  (splitOnChar '/' s.data).map String.mk

/-- Python `s.split('/')[-1]` (split never yields an empty list). -/
def lastSplitSegment (s : String) : String :=
  (pathSegments s).getLastD ""

/-- `pathlib.Path(p).name`: the last path component, where empty and `"."`
components do not count; `""` when there is none. -/
def pathName (p : String) : String :=
  ((pathSegments p).filter (fun seg => seg != "" && seg != ".")).getLastD ""

def startsWithSlash (s : String) : Bool :=
  match s.data with
  | [] => false
  | c :: _ => c == '/'

def endsWithSlash (s : String) : Bool :=
  match s.data.getLast? with
  | Option.none => false
  | some c => c == '/'

/-- `os.path.join(root, sub)` for POSIX paths and two arguments. -/
def joinPath (root sub : String) : String :=
  if startsWithSlash sub then sub
  else if root = "" then sub
  else if endsWithSlash root then root ++ sub
  else root ++ "/" ++ sub

/-- The per-candidate path used by `resolve_all`:
`os.path.join(root_path, stack.project_root) if stack.project_root else
root_path` (Python truthiness: `None` and `""` both fall back). -/
def projectPath (root_path : String) (stack : DetectedStack) : String :=
  match stack.project_root with
  | Option.none => root_path
  | some pr => if pr = "" then root_path else joinPath root_path pr

/-! ## Metadata extraction (`Resolver._extract_metadata` and helpers) -/

/-- `ProjectMetadata(name=name, version=version)`: pydantic validates that both
fields are strings; a Python `None` in either raises a `ValidationError`. -/
def mkMetadata (name version : Option String) : Except ResolveError ProjectMetadata :=
  match name, version with
  | some n, some v => .ok { name := n, version := v }
  | _, _ => .error .validation

/-- `_extract_from_package_json`: `data.get` keeps the old value when the key
is absent and returns the stored JSON value (possibly `null`) when present. -/
def extractFromPackageJson (d : DirFS) (name version : Option String) :
    Option String × Option String :=
  match d.packageJson with
  | Option.none => (name, version)
  | some pkg =>
    (match pkg.name with
     | Option.none => name
     | some v => v,
     match pkg.version with
     | Option.none => version
     | some v => v)

/-- `_extract_from_python_config`: `pyproject.toml` first (Poetry table, else
PEP 621 `project` table), then `setup.py` regexes, tried only when no name was
found yet. -/
def extractFromPythonConfig (d : DirFS) (name version : Option String) :
    Option String × Option String :=
  let step1 : Option String × Option String :=
    match d.pyproject with
    | Option.none => (name, version)
    | some (.poetry n v) =>
      (match n with | Option.none => name | some s => some s,
       match v with | Option.none => version | some s => some s)
    | some (.pep621 n v) =>
      (match n with | Option.none => name | some s => some s,
       match v with | Option.none => version | some s => some s)
    | some .neither => (name, version)
  let name := step1.1
  let version := step1.2
  if strFalsy name then
    match d.setupPy with
    | Option.none => (name, version)
    | some sp =>
      (match sp.name with | Option.none => name | some s => some s,
       match sp.version with | Option.none => version | some s => some s)
  else (name, version)

/-- `_extract_from_jvm_config`: `pom.xml`, then `build.gradle` and
`settings.gradle`, each gradle file tried only when no name was found yet.
Note that `pom.xml` assigns `name = artifact_id.text` and
`version = ver.text` unguarded, so an empty element stores `None`. -/
def extractFromJvmConfig (d : DirFS) (name version : Option String) :
    Option String × Option String :=
  let step1 : Option String × Option String :=
    match d.pomXml with
    | Option.none => (name, version)
    | some pom =>
      (match pom.artifactId with | Option.none => name | some t => t,
       match pom.version with | Option.none => version | some t => t)
  let step2 : Option String × Option String :=
    if strFalsy step1.1 then
      match d.buildGradle with
      | Option.none => step1
      | some g =>
        (match g.name with | Option.none => step1.1 | some s => some s,
         match g.version with | Option.none => step1.2 | some s => some s)
    else step1
  let name :=
    if strFalsy step2.1 then
      match d.settingsGradle with
      | Option.none => step2.1
      | some s => some s
    else step2.1
  (name, step2.2)

/-- `_extract_from_go_mod`: on a `module` line match, the name is the last
`/`-separated component of the module path. -/
def extractFromGoMod (d : DirFS) (name version : Option String) :
    Option String × Option String :=
  match d.goMod with
  | Option.none => (name, version)
  | some modPath => (some (lastSplitSegment modPath), version)

/-- `_extract_from_csproj`: a successfully parsed project file always sets the
name to the file stem; the version only from a found, truthy `Version`. -/
def extractFromCsproj (d : DirFS) (name version : Option String) :
    Option String × Option String :=
  match d.csproj with
  | Option.none => (name, version)
  | some cp =>
    (some cp.stem,
     match cp.version with | Option.none => version | some v => some v)

/-- `_extract_from_composer`: `full_name = data.get("name", "")`; a JSON
`null` name makes `"/" in full_name` raise a `TypeError`, which the enclosing
`except` catches, abandoning the whole block (version included). -/
def extractFromComposer (d : DirFS) (name version : Option String) :
    Option String × Option String :=
  match d.composerJson with
  | Option.none => (name, version)
  | some comp =>
    let fullName : Option String :=
      match comp.name with
      | Option.none => some ""
      | some v => v
    match fullName with
    | Option.none => (name, version)
    | some fn =>
      let name :=
        if fn.data.contains '/' then some (lastSplitSegment fn)
        else if fn ≠ "" then some fn
        else name
      let version :=
        match comp.version with
        | Option.none => version
        | some v => v
      (name, version)

/-- Embedding of `Resolver._extract_metadata`: dispatch on the language,
then the directory-name fallback for a falsy name, then the
`ProjectMetadata(...)` construction. -/
def extractMetadata (stack : DetectedStack) (root_path : String)
    (fsys : String → DirFS) : Except ResolveError ProjectMetadata :=
  let d := fsys root_path
  let start : Option String × Option String := (Option.none, some "0.1.0")
  let step : Option String × Option String :=
    match stack.language with
    | .nodejs => extractFromPackageJson d start.1 start.2
    | .typescript => extractFromPackageJson d start.1 start.2
    | .python => extractFromPythonConfig d start.1 start.2
    | .java => extractFromJvmConfig d start.1 start.2
    | .kotlin => extractFromJvmConfig d start.1 start.2
    | .go => extractFromGoMod d start.1 start.2
    | .dotnet => extractFromCsproj d start.1 start.2
    | .php => extractFromComposer d start.1 start.2
    | .unknown => start
  let name :=
    if strFalsy step.1 then
      some (if pathName root_path ≠ "" then pathName root_path
            else "auto-generated-" ++ stack.language.value)
    else step.1
  mkMetadata name step.2

/-! ## Resolution entry points (`Resolver.resolve`, `Resolver.resolve_all`) -/

/-- Embedding of `Resolver.resolve`.  An empty candidate list raises
`ValueError` (`emptyInput`); otherwise the candidates are stably sorted
ascending by `_get_priority`, the first sorted element is the winner
(`sorted_stacks[0]`; sorting a non-empty list is non-empty, so the `headD`
default is never used), its metadata is extracted at `root_path`, and the
`ProjectContext` is assembled.  A `ValidationError` escaping metadata
extraction propagates to the caller. -/
def resolve (l : List DetectedStack) (r : String) (fsys : String → DirFS) :
    Except ResolveError ProjectContext :=
  match l with
  | [] => .error .emptyInput
  | x :: xs =>
    let winner := (sortByKey getPriority (x :: xs)).headD x
    match extractMetadata winner r fsys with
    | .error e => .error e
    | .ok md =>
      .ok { metadata := md
            stack := winner
            root_path := r
            is_monorepo := decide (1 < (x :: xs).length)
            detected_projects := if 1 < (x :: xs).length then x :: xs else [] }

/-- One iteration of the `resolve_all` loop body: the context built
independently for one candidate at its own project path. -/
def buildCtx (r : String) (fsys : String → DirFS) (s : DetectedStack) :
    Except ResolveError ProjectContext :=
  match extractMetadata s (projectPath r s) fsys with
  | .error e => .error e
  | .ok md =>
    .ok { metadata := md
          stack := s
          root_path := projectPath r s
          is_monorepo := false
          detected_projects := [] }

/-- The `resolve_all` loop: contexts are appended in input order; an exception
in any iteration aborts the whole call. -/
def buildAll (r : String) (fsys : String → DirFS) :
    List DetectedStack → Except ResolveError (List ProjectContext)
  | [] => .ok []
  | s :: ss =>
    match buildCtx r fsys s with
    | .error e => .error e
    | .ok c =>
      match buildAll r fsys ss with
      | .error e => .error e
      | .ok cs => .ok (c :: cs)

/-- Embedding of `Resolver.resolve_all`: same empty-input check, one context
per candidate, then `contexts.sort(key=...)` — a stable ascending sort by the
priority of each context's stack. -/
def resolveAll (l : List DetectedStack) (r : String) (fsys : String → DirFS) :
    Except ResolveError (List ProjectContext) :=
  match l with
  | [] => .error .emptyInput
  | x :: xs =>
    match buildAll r fsys (x :: xs) with
    | .error e => .error e
    | .ok cs => .ok (sortByKey (fun c => getPriority c.stack) cs)

/-! ## State-passing variants for the mutation contract

`resolveSt`/`resolveAllSt` thread the caller's `detected_stacks` list through
the call, mirroring each operation the source performs on it: `len(...)` and
iteration only read it, `sorted(detected_stacks, key=...)` builds a new list,
and `contexts.sort(...)` mutates the fresh local `contexts` list, never the
argument.  The first component is the list as the caller observes it after the
call (also when an exception propagates). -/

def resolveSt (l : List DetectedStack) (r : String) (fsys : String → DirFS) :
    List DetectedStack × Except ResolveError ProjectContext :=
  match l with
  | [] => (l, .error .emptyInput)
  | x :: xs =>
    let winner := (sortByKey getPriority (x :: xs)).headD x
    match extractMetadata winner r fsys with
    | .error e => (x :: xs, .error e)
    | .ok md =>
      (x :: xs,
       .ok { metadata := md
             stack := winner
             root_path := r
             is_monorepo := decide (1 < (x :: xs).length)
             detected_projects := if 1 < (x :: xs).length then x :: xs else [] })

def resolveAllSt (l : List DetectedStack) (r : String) (fsys : String → DirFS) :
    List DetectedStack × Except ResolveError (List ProjectContext) :=
  match l with
  | [] => (l, .error .emptyInput)
  | x :: xs =>
    (x :: xs,
     match buildAll r fsys (x :: xs) with
     | .error e => .error e
     | .ok cs => .ok (sortByKey (fun c => getPriority c.stack) cs))

/-! ## Lemmas about the stable sort -/

theorem insertByKey_ne_nil {α : Type} (key : α → Int) (x : α) (l : List α) :
    insertByKey key x l ≠ [] := by
  cases l with
  | nil => simp [insertByKey]
  | cons y ys =>
    unfold insertByKey
    split <;> simp

theorem sortByKey_cons_ne_nil {α : Type} (key : α → Int) (x : α) (xs : List α) :
    sortByKey key (x :: xs) ≠ [] := by
  unfold sortByKey
  exact insertByKey_ne_nil key x _

theorem length_insertByKey {α : Type} (key : α → Int) (x : α) (l : List α) :
    (insertByKey key x l).length = l.length + 1 := by
  induction l with
  | nil => rfl
  | cons y ys ih =>
    unfold insertByKey
    split
    · rfl
    · simp [ih]

theorem length_sortByKey {α : Type} (key : α → Int) (l : List α) :
    (sortByKey key l).length = l.length := by
  induction l with
  | nil => rfl
  | cons x xs ih =>
    unfold sortByKey
    rw [length_insertByKey, ih]
    rfl

theorem insertByKey_perm {α : Type} (key : α → Int) (x : α) (l : List α) :
    List.Perm (insertByKey key x l) (x :: l) := by
  induction l with
  | nil => exact List.Perm.refl _
  | cons y ys ih =>
    unfold insertByKey
    split
    · exact List.Perm.refl _
    · exact (ih.cons y).trans (List.Perm.swap x y ys)

theorem sortByKey_perm {α : Type} (key : α → Int) (l : List α) :
    List.Perm (sortByKey key l) l := by
  induction l with
  | nil => exact List.Perm.refl _
  | cons x xs ih =>
    unfold sortByKey
    exact (insertByKey_perm key x _).trans (ih.cons x)

theorem pairwise_key_insertByKey {α : Type} (key : α → Int) (x : α) (l : List α)
    (h : l.Pairwise fun a b => key a ≤ key b) :
    (insertByKey key x l).Pairwise fun a b => key a ≤ key b := by
  induction l with
  | nil => simp [insertByKey]
  | cons y ys ih =>
    rw [List.pairwise_cons] at h
    obtain ⟨hy, hys⟩ := h
    unfold insertByKey
    split
    · rename_i hxy
      rw [List.pairwise_cons]
      refine ⟨?_, ?_⟩
      · intro b hb
        rcases List.mem_cons.mp hb with hb | hb
        · exact hb ▸ hxy
        · exact le_trans hxy (hy b hb)
      · rw [List.pairwise_cons]
        exact ⟨hy, hys⟩
    · rename_i hxy
      rw [List.pairwise_cons]
      refine ⟨?_, ih hys⟩
      intro b hb
      rcases List.mem_cons.mp ((insertByKey_perm key x ys).mem_iff.mp hb) with hb | hb
      · exact hb ▸ le_of_not_le hxy
      · exact hy b hb

theorem pairwise_key_sortByKey {α : Type} (key : α → Int) (l : List α) :
    (sortByKey key l).Pairwise fun a b => key a ≤ key b := by
  induction l with
  | nil => simp [sortByKey]
  | cons x xs ih =>
    unfold sortByKey
    exact pairwise_key_insertByKey key x _ ih

theorem map_insertByKey {α β : Type} (key : α → Int) (g : β → α) (x : β)
    (l : List β) :
    (insertByKey (fun b => key (g b)) x l).map g = insertByKey key (g x) (l.map g) := by
  induction l with
  | nil => rfl
  | cons y ys ih =>
    by_cases h : key (g x) ≤ key (g y)
    · simp [insertByKey, h]
    · simp [insertByKey, h, ih]

theorem map_sortByKey {α β : Type} (key : α → Int) (g : β → α) (l : List β) :
    (sortByKey (fun b => key (g b)) l).map g = sortByKey key (l.map g) := by
  induction l with
  | nil => rfl
  | cons x xs ih =>
    unfold sortByKey
    rw [map_insertByKey, ih]
    rfl

theorem head?_sortByKey {α : Type} (key : α → Int) (l : List α) :
    (sortByKey key l).head? = firstMinBy key l := by
  induction l with
  | nil => rfl
  | cons x xs ih =>
    unfold sortByKey firstMinBy
    rw [← ih]
    cases h : sortByKey key xs with
    | nil => simp [insertByKey]
    | cons y ys =>
      by_cases hxy : key x ≤ key y
      · simp [insertByKey, hxy]
      · simp [insertByKey, hxy]

theorem head?_map_list {α β : Type} (f : α → β) (l : List α) :
    (l.map f).head? = l.head?.map f := by
  cases l <;> rfl

theorem firstMinBy_mem {α : Type} (key : α → Int) :
    ∀ (l : List α) (x : α), firstMinBy key l = some x → x ∈ l := by
  intro l
  induction l with
  | nil => intro x h; simp [firstMinBy] at h
  | cons a as ih =>
    intro x h
    simp only [firstMinBy] at h
    cases hm : firstMinBy key as with
    | none =>
      rw [hm] at h
      injection h with h
      subst h
      exact List.mem_cons_self _ _
    | some y =>
      rw [hm] at h
      simp only at h
      split at h
      · injection h with h
        subst h
        exact List.mem_cons_self _ _
      · injection h with h
        subst h
        exact List.mem_cons_of_mem _ (ih y hm)

theorem firstMinBy_le {α : Type} (key : α → Int) :
    ∀ (l : List α) (x : α), firstMinBy key l = some x →
      ∀ y ∈ l, key x ≤ key y := by
  intro l
  induction l with
  | nil => intro x h; simp [firstMinBy] at h
  | cons a as ih =>
    intro x h y hy
    simp only [firstMinBy] at h
    cases hm : firstMinBy key as with
    | none =>
      have has : as = [] := by
        cases as with
        | nil => rfl
        | cons b bs =>
          exfalso
          simp only [firstMinBy] at hm
          cases hb : firstMinBy key bs with
          | none => rw [hb] at hm; simp at hm
          | some z => rw [hb] at hm; simp only at hm; split at hm <;> simp at hm
      rw [hm] at h
      injection h with h
      subst h
      subst has
      rcases List.mem_cons.mp hy with hy | hy
      · exact hy ▸ le_refl _
      · simp at hy
    | some z =>
      rw [hm] at h
      simp only at h
      split at h
      · rename_i haz
        injection h with h
        subst h
        rcases List.mem_cons.mp hy with hy | hy
        · exact hy ▸ le_refl _
        · exact le_trans haz (ih z hm y hy)
      · rename_i haz
        injection h with h
        subst h
        rcases List.mem_cons.mp hy with hy | hy
        · exact hy ▸ le_of_not_le haz
        · exact ih z hm y hy

/-! ## Helper lemmas about the resolver -/

theorem mkMetadata_error (n v : Option String) (e : ResolveError)
    (h : mkMetadata n v = .error e) : e = .validation := by
  cases n <;> cases v <;> simp_all [mkMetadata]

/-- The only exception metadata extraction lets escape is the pydantic
`ValidationError` of the final `ProjectMetadata(...)` construction. -/
theorem extractMetadata_error (s : DetectedStack) (p : String)
    (fsys : String → DirFS) (e : ResolveError)
    (h : extractMetadata s p fsys = .error e) : e = .validation := by
  exact mkMetadata_error _ _ _ h

theorem buildCtx_error (r : String) (fsys : String → DirFS) (s : DetectedStack)
    (e : ResolveError) (h : buildCtx r fsys s = .error e) : e = .validation := by
  unfold buildCtx at h
  cases hm : extractMetadata s (projectPath r s) fsys with
  | error e' =>
    rw [hm] at h
    simp only [Except.error.injEq] at h
    subst h
    exact extractMetadata_error _ _ _ _ hm
  | ok md =>
    rw [hm] at h
    simp at h

theorem buildAll_error (r : String) (fsys : String → DirFS) :
    ∀ (l : List DetectedStack) (e : ResolveError),
      buildAll r fsys l = .error e → e = .validation := by
  intro l
  induction l with
  | nil => intro e h; simp [buildAll] at h
  | cons s ss ih =>
    intro e h
    simp only [buildAll] at h
    cases hb : buildCtx r fsys s with
    | error e' =>
      rw [hb] at h
      simp only [Except.error.injEq] at h
      subst h
      exact buildCtx_error _ _ _ _ hb
    | ok c =>
      rw [hb] at h
      cases ha : buildAll r fsys ss with
      | error e' =>
        rw [ha] at h
        simp only [Except.error.injEq] at h
        subst h
        exact ih _ ha
      | ok cs =>
        rw [ha] at h
        simp at h

theorem buildCtx_ok (r : String) (fsys : String → DirFS) (s : DetectedStack)
    (c : ProjectContext) (h : buildCtx r fsys s = .ok c) :
    c.stack = s ∧ c.is_monorepo = false ∧ c.detected_projects = [] ∧
      c.root_path = projectPath r s := by
  unfold buildCtx at h
  cases hm : extractMetadata s (projectPath r s) fsys with
  | error e =>
    rw [hm] at h
    simp at h
  | ok md =>
    rw [hm] at h
    simp only [Except.ok.injEq] at h
    subst h
    exact ⟨rfl, rfl, rfl, rfl⟩

theorem buildAll_map_stack (r : String) (fsys : String → DirFS) :
    ∀ (l : List DetectedStack) (cs : List ProjectContext),
      buildAll r fsys l = .ok cs → cs.map (fun c => c.stack) = l := by
  intro l
  induction l with
  | nil =>
    intro cs h
    simp only [buildAll, Except.ok.injEq] at h
    subst h
    rfl
  | cons s ss ih =>
    intro cs h
    simp only [buildAll] at h
    cases hb : buildCtx r fsys s with
    | error e => rw [hb] at h; simp at h
    | ok c =>
      rw [hb] at h
      cases ha : buildAll r fsys ss with
      | error e => rw [ha] at h; simp at h
      | ok cs' =>
        rw [ha] at h
        simp only [Except.ok.injEq] at h
        subst h
        simp only [List.map_cons]
        rw [(buildCtx_ok r fsys s c hb).1, ih cs' ha]

theorem buildAll_mem (r : String) (fsys : String → DirFS) :
    ∀ (l : List DetectedStack) (cs : List ProjectContext),
      buildAll r fsys l = .ok cs →
      ∀ c ∈ cs, buildCtx r fsys c.stack = .ok c := by
  intro l
  induction l with
  | nil =>
    intro cs h c hc
    simp only [buildAll, Except.ok.injEq] at h
    subst h
    simp at hc
  | cons s ss ih =>
    intro cs h c hc
    simp only [buildAll] at h
    cases hb : buildCtx r fsys s with
    | error e => rw [hb] at h; simp at h
    | ok c₀ =>
      rw [hb] at h
      cases ha : buildAll r fsys ss with
      | error e => rw [ha] at h; simp at h
      | ok cs' =>
        rw [ha] at h
        simp only [Except.ok.injEq] at h
        subst h
        rcases List.mem_cons.mp hc with hc | hc
        · rw [hc, (buildCtx_ok r fsys s c₀ hb).1]
          exact hb
        · exact ih cs' ha c hc

theorem resolveAll_ok_parts (l : List DetectedStack) (r : String)
    (fsys : String → DirFS) (cs : List ProjectContext)
    (h : resolveAll l r fsys = .ok cs) :
    ∃ cs₀, buildAll r fsys l = .ok cs₀ ∧
      cs = sortByKey (fun c => getPriority c.stack) cs₀ := by
  cases l with
  | nil => simp [resolveAll] at h
  | cons x xs =>
    simp only [resolveAll] at h
    cases hb : buildAll r fsys (x :: xs) with
    | error e => rw [hb] at h; simp at h
    | ok cs₀ =>
      rw [hb] at h
      simp only [Except.ok.injEq] at h
      exact ⟨cs₀, rfl, h.symm⟩

theorem resolveAll_ok_map_stack (l : List DetectedStack) (r : String)
    (fsys : String → DirFS) (cs : List ProjectContext)
    (h : resolveAll l r fsys = .ok cs) :
    cs.map (fun c => c.stack) = sortByKey getPriority l := by
  obtain ⟨cs₀, hb, rfl⟩ := resolveAll_ok_parts l r fsys cs h
  have h1 := map_sortByKey getPriority (fun c : ProjectContext => c.stack) cs₀
  rw [buildAll_map_stack r fsys l cs₀ hb] at h1
  exact h1

/-- A successful `resolve` returns the head of the stable sort as the winner. -/
theorem resolve_ok_stack (l : List DetectedStack) (r : String)
    (fsys : String → DirFS) (ctx : ProjectContext)
    (h : resolve l r fsys = .ok ctx) :
    (sortByKey getPriority l).head? = some ctx.stack := by
  cases l with
  | nil => simp [resolve] at h
  | cons x xs =>
    simp only [resolve] at h
    cases hm : extractMetadata ((sortByKey getPriority (x :: xs)).headD x) r fsys with
    | error e =>
      rw [hm] at h
      simp at h
    | ok md =>
      rw [hm] at h
      simp only [Except.ok.injEq] at h
      subst h
      cases hs : sortByKey getPriority (x :: xs) with
      | nil => exact absurd hs (sortByKey_cons_ne_nil getPriority x xs)
      | cons w ws => rfl

/-! ## Concrete fixtures used by witnesses and counterexamples -/

/-- A filesystem on which every manifest is absent. -/
def fs0 : String → DirFS := fun _ => {}

def stackJavaA : DetectedStack := { language := .java, project_root := some "a" }

def stackJavaB : DetectedStack := { language := .java, project_root := some "b" }

def stackPy : DetectedStack := { language := .python }

def csE : DetectedStack := { language := .typescript, framework := .express }

def csR : DetectedStack := { language := .typescript, framework := .react }

def nodeStack : DetectedStack := { language := .nodejs }

/-- A directory whose `package.json` parses to `{"version": null}`. -/
def fsBadVersion : String → DirFS := fun _ =>
  { packageJson := some { version := some Option.none } }

def ctxW : ProjectContext :=
  { metadata := { name := "r" }, stack := stackJavaA, root_path := "r",
    is_monorepo := true, detected_projects := [stackJavaA, stackPy] }

def ctxW2 : ProjectContext :=
  { metadata := { name := "r" }, stack := stackJavaA, root_path := "r",
    is_monorepo := true, detected_projects := [stackPy, stackJavaA] }

def ctxSingle : ProjectContext :=
  { metadata := { name := "proj" }, stack := stackPy, root_path := "proj" }

def ctxA10 : ProjectContext :=
  { metadata := { name := "a" }, stack := stackJavaA, root_path := "r/a" }

def ctxP10 : ProjectContext :=
  { metadata := { name := "r" }, stack := stackPy, root_path := "r" }

def ctxE7 : ProjectContext :=
  { metadata := { name := "q" }, stack := csE, root_path := "q",
    is_monorepo := true, detected_projects := [csE, csR] }

def ctxE7r : ProjectContext :=
  { metadata := { name := "q" }, stack := csE, root_path := "q",
    is_monorepo := true, detected_projects := [csR, csE] }

/-! ## Claims -/

/-- C1: for every `DetectedStack`, `Resolver._get_priority` computes exactly
the spec's reference formula: the 0-based rank of the language in the fixed
precedence list times 100 (999 flat for an unlisted language), plus the fixed
framework-table entry (50 for an absent framework), plus — additively and
independently — the TypeScript-backend boost, the Node.js-frontend penalty,
the Kotlin/Ktor boost, and the dockerfile and tests bonuses. -/
theorem getPriority_eq_refPriority (s : DetectedStack) :
    getPriority s = refPriority s := by
  have h : ∀ (lg : Language) (fw : Framework) (d t : Bool),
      prioCore lg fw d t = refCore lg fw d t := by decide
  exact h s.language s.framework s.has_dockerfile s.has_tests

/-- C2, counterexample: the claim "swapping two candidates with different
scores never changes the winner" is false.  `stackJavaA` and `stackJavaB`
(both score 50) tie for the minimum and `stackPy` scores 450; swapping the
different-score pair `stackJavaA`/`stackPy` moves the winner from
`stackJavaA` to the other tied candidate `stackJavaB`. -/
theorem resolve_swap_claim_false :
    getPriority stackJavaA ≠ getPriority stackPy ∧
    stackJavaA ≠ stackJavaB ∧
    (resolve [stackJavaA, stackJavaB, stackPy] "r" fs0).map (fun c => c.stack) =
      .ok stackJavaA ∧
    (resolve [stackPy, stackJavaB, stackJavaA] "r" fs0).map (fun c => c.stack) =
      .ok stackJavaB :=
  ⟨by decide, by decide, rfl, rfl⟩

/-- C2 (amended): `resolve` stably sorts ascending by score and picks the
first element, so the winner is the earliest candidate in input order
attaining the minimal score (ties broken only by input order, never by a
secondary key); consequently any reordering of the candidates preserves the
winner whenever the minimal score is attained by a unique candidate. -/
theorem resolve_stable_first_min
    (l l' : List DetectedStack) (r r' : String)
    (fsys fsys' : String → DirFS) (ctx ctx' : ProjectContext)
    (h : resolve l r fsys = .ok ctx) :
    firstMinBy getPriority l = some ctx.stack ∧
    (resolve l' r' fsys' = .ok ctx' → List.Perm l' l →
      (∀ y ∈ l, getPriority y = getPriority ctx.stack → y = ctx.stack) →
      ctx'.stack = ctx.stack) := by
  have h1 : firstMinBy getPriority l = some ctx.stack := by
    rw [← head?_sortByKey]
    exact resolve_ok_stack l r fsys ctx h
  refine ⟨h1, fun h' hperm huniq => ?_⟩
  have h1' : firstMinBy getPriority l' = some ctx'.stack := by
    rw [← head?_sortByKey]
    exact resolve_ok_stack l' r' fsys' ctx' h'
  have hmem' : ctx'.stack ∈ l := hperm.mem_iff.mp (firstMinBy_mem _ l' _ h1')
  have hmem : ctx.stack ∈ l' := hperm.mem_iff.mpr (firstMinBy_mem _ l _ h1)
  exact huniq _ hmem'
    (le_antisymm (firstMinBy_le _ l' _ h1' _ hmem) (firstMinBy_le _ l _ h1 _ hmem'))

/-- Witness for the amended C2 at concrete inputs. -/
theorem resolve_stable_first_min_witness :
    firstMinBy getPriority [stackJavaA, stackPy] = some ctxW.stack ∧
    ctxW2.stack = ctxW.stack := by
  have H := resolve_stable_first_min [stackJavaA, stackPy] [stackPy, stackJavaA]
    "r" "r" fs0 fs0 ctxW ctxW2 rfl
  exact ⟨H.1, H.2 rfl (by decide) (by decide)⟩

/-- C3: `resolve` and `resolve_all` on an empty candidate list fail with the
empty-input error, surfaced to the caller; on every non-empty list neither can
fail with that error. -/
theorem resolve_empty_input_contract (l : List DetectedStack) (r : String)
    (fsys : String → DirFS) (h : l ≠ []) :
    resolve [] r fsys = .error .emptyInput ∧
    resolveAll [] r fsys = .error .emptyInput ∧
    resolve l r fsys ≠ .error .emptyInput ∧
    resolveAll l r fsys ≠ .error .emptyInput := by
  refine ⟨rfl, rfl, ?_, ?_⟩
  · cases l with
    | nil => exact absurd rfl h
    | cons x xs =>
      simp only [resolve]
      cases hm : extractMetadata ((sortByKey getPriority (x :: xs)).headD x) r fsys with
      | error e =>
        have he := extractMetadata_error _ _ _ _ hm
        subst he
        intro hc
        injection hc with hc
        cases hc
      | ok md =>
        intro hc
        cases hc
  · cases l with
    | nil => exact absurd rfl h
    | cons x xs =>
      simp only [resolveAll]
      cases hb : buildAll r fsys (x :: xs) with
      | error e =>
        have he := buildAll_error _ _ _ _ hb
        subst he
        intro hc
        injection hc with hc
        cases hc
      | ok cs =>
        intro hc
        cases hc

/-- Witness for C3 at concrete inputs. -/
theorem resolve_empty_input_witness :
    resolve [] "r" fs0 = .error .emptyInput ∧
    resolve [stackPy] "r" fs0 ≠ .error .emptyInput := by
  have H := resolve_empty_input_contract [stackPy] "r" fs0 (by simp)
  exact ⟨H.1, H.2.2.1⟩

/-- C4: a successful `resolve` sets `is_monorepo` to `len(candidates) > 1`;
when it is true, `detected_projects` is exactly the caller's input list in its
original order; on a singleton `[x]` the context has `is_monorepo = false`,
empty `detected_projects`, and `stack = x`. -/
theorem resolve_monorepo_fields (l : List DetectedStack) (r : String)
    (fsys : String → DirFS) (ctx : ProjectContext)
    (h : resolve l r fsys = .ok ctx) :
    ctx.is_monorepo = decide (1 < l.length) ∧
    (1 < l.length → ctx.detected_projects = l) ∧
    (∀ x, l = [x] → ctx.is_monorepo = false ∧ ctx.detected_projects = [] ∧
      ctx.stack = x) := by
  cases l with
  | nil => simp [resolve] at h
  | cons x xs =>
    simp only [resolve] at h
    cases hm : extractMetadata ((sortByKey getPriority (x :: xs)).headD x) r fsys with
    | error e => rw [hm] at h; simp at h
    | ok md =>
      rw [hm] at h
      simp only [Except.ok.injEq] at h
      subst h
      refine ⟨rfl, ?_, ?_⟩
      · intro hlen
        exact if_pos hlen
      · intro y hy
        injection hy with h1 h2
        subst h1
        subst h2
        exact ⟨rfl, rfl, rfl⟩

/-- Witness for C4 at concrete inputs. -/
theorem resolve_monorepo_fields_witness :
    ctxW.detected_projects = [stackJavaA, stackPy] ∧ ctxSingle.stack = stackPy := by
  have H := resolve_monorepo_fields [stackJavaA, stackPy] "r" fs0 ctxW rfl
  have H2 := resolve_monorepo_fields [stackPy] "proj" fs0 ctxSingle rfl
  exact ⟨H.2.1 (by decide), (H2.2.2 stackPy rfl).2.2⟩

/-- C5: a successful `resolve_all` on N candidates returns N contexts, each
with `is_monorepo = false`, empty `detected_projects`, and `root_path` equal
to the root joined with that candidate's `project_root` (unchanged when it is
empty), each built independently; and the list is stably sorted ascending by
the same scoring function as `resolve` — its stack sequence is exactly the
stable sort of the input. -/
theorem resolveAll_contexts (l : List DetectedStack) (r : String)
    (fsys : String → DirFS) (cs : List ProjectContext)
    (h : resolveAll l r fsys = .ok cs) :
    cs.length = l.length ∧
    (∀ c ∈ cs, c.is_monorepo = false ∧ c.detected_projects = [] ∧
      c.root_path = projectPath r c.stack ∧ buildCtx r fsys c.stack = .ok c) ∧
    cs.Pairwise (fun a b => getPriority a.stack ≤ getPriority b.stack) ∧
    cs.map (fun c => c.stack) = sortByKey getPriority l := by
  have hmap := resolveAll_ok_map_stack l r fsys cs h
  obtain ⟨cs₀, hb, rfl⟩ := resolveAll_ok_parts l r fsys cs h
  refine ⟨?_, ?_, ?_, hmap⟩
  · rw [length_sortByKey]
    have hlen := congrArg List.length (buildAll_map_stack r fsys l cs₀ hb)
    simpa using hlen
  · intro c hc
    have hc₀ : c ∈ cs₀ := (sortByKey_perm _ cs₀).mem_iff.mp hc
    have hbc := buildAll_mem r fsys l cs₀ hb c hc₀
    have hk := buildCtx_ok r fsys c.stack c hbc
    exact ⟨hk.2.1, hk.2.2.1, hk.2.2.2, hbc⟩
  · exact pairwise_key_sortByKey _ cs₀

/-- Witness for C5 at concrete inputs. -/
theorem resolveAll_contexts_witness :
    [ctxA10, ctxP10].map (fun c => c.stack) =
      sortByKey getPriority [stackJavaA, stackPy] ∧
    ctxA10.is_monorepo = false ∧
    ctxA10.root_path = projectPath "r" ctxA10.stack := by
  have H := resolveAll_contexts [stackJavaA, stackPy] "r" fs0 [ctxA10, ctxP10] rfl
  have h1 := H.2.1 ctxA10 (by simp)
  exact ⟨H.2.2.2, h1.1, h1.2.2.1⟩

/-- C6: the claim says `extract_metadata` never fails, but the code can raise:
on a directory whose `package.json` is `{"version": null}`, `data.get`
returns `None`, and `ProjectMetadata(name=..., version=None)` raises a
pydantic `ValidationError` that escapes `_extract_metadata` (the analogous
unguarded path exists for a `pom.xml` with an empty `<version/>` element,
while the `.csproj` extractor guards the same assignment). -/
theorem extractMetadata_null_version_fails :
    extractMetadata nodeStack "app" fsBadVersion = .error .validation := rfl

/-- C7: a TypeScript+Express candidate scores 551 (600 + 1 - 50) and a
TypeScript+React candidate scores 622 (600 + 22, no Node.js frontend
penalty), so `resolve` picks the Express candidate as winner in either input
order. -/
theorem typescript_express_beats_react
    (s₁ s₂ : DetectedStack) (r₁ r₂ : String) (g₁ g₂ : String → DirFS)
    (ctx₁ ctx₂ : ProjectContext)
    (h1l : s₁.language = .typescript) (h1f : s₁.framework = .express)
    (h1d : s₁.has_dockerfile = false) (h1t : s₁.has_tests = false)
    (h2l : s₂.language = .typescript) (h2f : s₂.framework = .react)
    (h2d : s₂.has_dockerfile = false) (h2t : s₂.has_tests = false)
    (h : resolve [s₁, s₂] r₁ g₁ = .ok ctx₁)
    (h' : resolve [s₂, s₁] r₂ g₂ = .ok ctx₂) :
    getPriority s₁ = 551 ∧ getPriority s₂ = 622 ∧
    ctx₁.stack = s₁ ∧ ctx₂.stack = s₁ := by
  have e₁ : getPriority s₁ = 551 := by
    unfold getPriority
    rw [h1l, h1f, h1d, h1t]
    decide
  have e₂ : getPriority s₂ = 622 := by
    unfold getPriority
    rw [h2l, h2f, h2d, h2t]
    decide
  have hs : sortByKey getPriority [s₁, s₂] = [s₁, s₂] := by
    simp only [sortByKey, insertByKey]
    rw [e₁, e₂]
    norm_num
  have hs' : sortByKey getPriority [s₂, s₁] = [s₁, s₂] := by
    simp only [sortByKey, insertByKey]
    rw [e₁, e₂]
    norm_num
  have hw := resolve_ok_stack _ _ _ _ h
  have hw' := resolve_ok_stack _ _ _ _ h'
  rw [hs] at hw
  rw [hs'] at hw'
  simp only [List.head?_cons, Option.some.injEq] at hw hw'
  exact ⟨e₁, e₂, hw.symm, hw'.symm⟩

/-- Witness for C7 at concrete inputs. -/
theorem typescript_express_beats_react_witness :
    getPriority csE = 551 ∧ getPriority csR = 622 ∧
    ctxE7.stack = csE ∧ ctxE7r.stack = csE :=
  typescript_express_beats_react csE csR "q" "q" fs0 fs0 ctxE7 ctxE7r
    rfl rfl rfl rfl rfl rfl rfl rfl rfl rfl

/-- C8: `resolve` is deterministic — two calls with by-value identical inputs
under the same filesystem state give identical results — and the scoring
function takes no filesystem argument at all and depends only on the
language, framework, and the two maturity flags. -/
theorem resolve_deterministic (l₁ l₂ : List DetectedStack) (r₁ r₂ : String)
    (g₁ g₂ : String → DirFS) (hl : l₁ = l₂) (hr : r₁ = r₂) (hg : g₁ = g₂) :
    resolve l₁ r₁ g₁ = resolve l₂ r₂ g₂ ∧
    ∀ s₁ s₂ : DetectedStack, s₁.language = s₂.language →
      s₁.framework = s₂.framework → s₁.has_dockerfile = s₂.has_dockerfile →
      s₁.has_tests = s₂.has_tests → getPriority s₁ = getPriority s₂ := by
  subst hl
  subst hr
  subst hg
  refine ⟨rfl, fun s₁ s₂ h1 h2 h3 h4 => ?_⟩
  unfold getPriority
  rw [h1, h2, h3, h4]

/-- Witness for C8 at concrete inputs. -/
theorem resolve_deterministic_witness :
    resolve [stackPy] "proj" fs0 = resolve [stackPy] "proj" fs0 ∧
    getPriority stackJavaA = getPriority stackJavaB := by
  have H := resolve_deterministic [stackPy] [stackPy] "proj" "proj" fs0 fs0 rfl rfl rfl
  exact ⟨H.1, H.2 stackJavaA stackJavaB rfl rfl rfl rfl⟩

/-- C9: neither entry point mutates its input: the state-passing embeddings,
which thread the caller's list through every operation the source performs on
it, return it unchanged in every case (success and both error cases) while
computing the same result as `resolve`/`resolve_all` — the sort happens on the
copy made by `sorted(...)`, and `contexts.sort(...)` mutates only the fresh
local list. -/
theorem resolve_preserves_input (l : List DetectedStack) (r : String)
    (fsys : String → DirFS) :
    (resolveSt l r fsys).1 = l ∧ (resolveSt l r fsys).2 = resolve l r fsys ∧
    (resolveAllSt l r fsys).1 = l ∧
    (resolveAllSt l r fsys).2 = resolveAll l r fsys := by
  cases l with
  | nil => exact ⟨rfl, rfl, rfl, rfl⟩
  | cons x xs =>
    refine ⟨?_, ?_, rfl, rfl⟩
    · simp only [resolveSt]
      cases hm : extractMetadata ((sortByKey getPriority (x :: xs)).headD x) r fsys with
      | error e => rfl
      | ok md => rfl
    · simp only [resolveSt, resolve]
      cases hm : extractMetadata ((sortByKey getPriority (x :: xs)).headD x) r fsys with
      | error e => rfl
      | ok md => rfl

/-- C10: whenever both entry points succeed on the same input, the winner
picked by `resolve` is the stack of the first context returned by
`resolve_all`: both order by the same scoring key with the same stable sort
over the same input order. -/
theorem resolve_eq_head_resolveAll (l : List DetectedStack) (r : String)
    (fsys : String → DirFS) (ctx : ProjectContext) (cs : List ProjectContext)
    (h : resolve l r fsys = .ok ctx) (h' : resolveAll l r fsys = .ok cs) :
    cs.head?.map (fun c => c.stack) = some ctx.stack := by
  have h1 := resolve_ok_stack l r fsys ctx h
  have h2 := resolveAll_ok_map_stack l r fsys cs h'
  rw [← h2, head?_map_list] at h1
  exact h1

/-- Witness for C10 at concrete inputs. -/
theorem resolve_eq_head_resolveAll_witness :
    [ctxA10, ctxP10].head?.map (fun c => c.stack) = some ctxW.stack :=
  resolve_eq_head_resolveAll [stackJavaA, stackPy] "r" fs0 ctxW [ctxA10, ctxP10]
    rfl rfl

end AutoPipe
